import Mathlib

/-!
Shallow embedding of the constrained time-integration engine of the sampled
HOOMD-blue fork: the RATTLE fixed-point projector (TwoStepRATTLENVE,
TwoStepRATTLELangevin and the Brownian GPU kernels), the two-step integration
scheduler (IntegratorTwoStep) and its degree-of-freedom accounting.

Modelling conventions:
* `Scalar` values are modelled as exact rationals.
* A square root whose value the source only compares against the tolerance
  eta is modelled by comparing squares, which is exact for a nonnegative
  tolerance; a square root whose value enters the state (the movement-limit
  clamps, the random-force coefficient) is modelled by an explicit
  square-root oracle argument `sqrtQ`, and theorems that need its value
  assume its defining equation at the point of use.
* Random number generation (hoomd::RandomGenerator seeded by an
  RNGIdentifier, the user seed, the particle tag and the timestep) is
  modelled by an abstract stream `rs : RNGIdent -> seed -> tag -> timestep ->
  draw index -> value`; distribution transforms are abstract functions of
  the stream values.
* The periodic `box.wrap` calls re-canonicalise `(position, image)` without
  changing the unwrapped position; the box itself lives outside the sampled
  sources, so the wrap step is omitted (positions stay unwrapped and image
  counters untouched).
-/

/-- A 3-vector of exact scalars, standing for the source Scalar3
    (and for the xyz part of a Scalar4). -/
structure Vec3 where
  x : ℚ
  y : ℚ
  z : ℚ
  deriving DecidableEq, Repr

def vadd (a b : Vec3) : Vec3 := ⟨a.x + b.x, a.y + b.y, a.z + b.z⟩

def vsub (a b : Vec3) : Vec3 := ⟨a.x - b.x, a.y - b.y, a.z - b.z⟩

def smul (c : ℚ) (a : Vec3) : Vec3 := ⟨c * a.x, c * a.y, c * a.z⟩

/-- dot(a,b) of HOOMDMath. -/
def dot (a b : Vec3) : ℚ := a.x * b.x + a.y * b.y + a.z * b.z

/-- Squared Euclidean norm. -/
def normSq (a : Vec3) : ℚ := dot a a

/-- Exit test of the RATTLE position-stage loops.  The source computes
    `maxNorm(vec, resid) = max(sqrt(dot(vec,vec)), fabs(resid))` and keeps
    iterating while it exceeds eta; for `0 ≤ eta` that test is equivalent to
    the two square comparisons below, which are exact over ℚ. -/
def maxNormLe (vec : Vec3) (resid eta : ℚ) : Bool :=
  decide (dot vec vec ≤ eta ^ 2) && decide (resid ^ 2 ≤ eta ^ 2)

/-- Exit test of the RATTLE velocity-stage loops: the source compares
    `maxNorm(residual, resid) * mass` against eta; for `0 ≤ eta` and
    `0 ≤ mass` this is the same as the square comparisons below. -/
def maxNormMulLe (vec : Vec3) (resid mass eta : ℚ) : Bool :=
  decide (dot vec vec * mass ^ 2 ≤ eta ^ 2) && decide (resid ^ 2 * mass ^ 2 ≤ eta ^ 2)

/-- A manifold: implicit surface value and gradient, exactly the interface
    the integration methods consume (Manifold::implicit_function and
    Manifold::derivative). -/
structure Manifold where
  implicit_function : Vec3 → ℚ
  derivative : Vec3 → Vec3

/-! ## RATTLE position-stage fixed-point loop

The same loop body appears verbatim in TwoStepRATTLENVE::integrateStepOne
and in TwoStepRATTLELangevin::IncludeRATTLEForce; it is embedded once.
`pos`, `vel`, `accel` are the particle state at loop entry, `normal` is the
gradient evaluated at the entry position, and the iteration state is the
candidate position `next_pos` with the multiplier `lam` (source: lambda). -/

/-- All values computed by one execution of the position-stage loop body. -/
structure RattlePosBodyOut where
  halfVel : Vec3
  residual : Vec3
  resid : ℚ
  nextPos2 : Vec3
  lam2 : ℚ
  deriving DecidableEq, Repr

/-- One body of the do-while loop of TwoStepRATTLENVE::integrateStepOne
    (and TwoStepRATTLELangevin::IncludeRATTLEForce). -/
def rattlePosBody (M : Manifold) (pos vel accel normal : Vec3)
    (inv_mass deltaT : ℚ) (next_pos : Vec3) (lam : ℚ) : RattlePosBodyOut :=
  let deltaT_half : ℚ := 1 / 2 * deltaT
  let half_vel := vadd vel (smul deltaT_half (vsub accel (smul (inv_mass * lam) normal)))
  let residual := vadd (vsub pos next_pos) (smul deltaT half_vel)
  let resid := M.implicit_function next_pos
  let next_normal := M.derivative next_pos
  let nndotr := dot next_normal residual
  let nndotn := dot next_normal normal
  let beta := (resid + nndotr) / nndotn
  let next_pos2 := vadd (vsub next_pos (smul beta normal)) residual
  let inv_alpha := 1 / (-(deltaT_half * deltaT * inv_mass))
  let lam2 := lam - beta * inv_alpha
  ⟨half_vel, residual, resid, next_pos2, lam2⟩

/-- Result of the position-stage loop.  `xHat` is the iterate at which the
    final residuals were evaluated (the candidate position at the start of
    the last executed body); `nextPos` is the candidate after the final
    update; `converged` records whether the tolerance test was met when the
    loop exited. -/
structure RattlePosResult where
  xHat : Vec3
  nextPos : Vec3
  lam : ℚ
  halfVel : Vec3
  residual : Vec3
  resid : ℚ
  iters : ℕ
  converged : Bool
  deriving DecidableEq, Repr

/-- Exit record of the position-stage loop when the final body ran from
    state `(next_pos, lam)`. -/
def rattlePosExit (M : Manifold) (pos vel accel normal : Vec3)
    (inv_mass deltaT eta : ℚ) (next_pos : Vec3) (lam : ℚ) (iters : ℕ) :
    RattlePosResult :=
  let b := rattlePosBody M pos vel accel normal inv_mass deltaT next_pos lam
  ⟨next_pos, b.nextPos2, b.lam2, b.halfVel, b.residual, b.resid, iters + 1,
    maxNormLe b.residual b.resid eta⟩

/-- The do-while loop.  `remaining` counts the iterations still allowed
    (`maxiteration` minus the iterations already executed); the source
    continues while the residual test fails and `iteration < maxiteration`,
    which from a call with `remaining` allowed iterations means: run the
    body once, then recurse iff the test failed and `remaining ≥ 2`. -/
def rattlePosGo (M : Manifold) (pos vel accel normal : Vec3)
    (inv_mass deltaT eta : ℚ) :
    Vec3 → ℚ → ℕ → ℕ → RattlePosResult
  | next_pos, lam, iters, rem + 2 =>
    let b := rattlePosBody M pos vel accel normal inv_mass deltaT next_pos lam
    if maxNormLe b.residual b.resid eta then
      rattlePosExit M pos vel accel normal inv_mass deltaT eta next_pos lam iters
    else
      rattlePosGo M pos vel accel normal inv_mass deltaT eta
        b.nextPos2 b.lam2 (iters + 1) (rem + 1)
  | next_pos, lam, iters, _ =>
    rattlePosExit M pos vel accel normal inv_mass deltaT eta next_pos lam iters

/-- Entry point of the position-stage RATTLE solve: lambda starts at 0, the
    candidate position at the current position, the gradient is evaluated
    there, and at most `maxiteration = 10` bodies execute. -/
def rattlePos (M : Manifold) (pos vel accel : Vec3) (mass deltaT eta : ℚ) :
    RattlePosResult :=
  rattlePosGo M pos vel accel (M.derivative pos) (1 / mass) deltaT eta pos 0 0 10

/-! ## RATTLE velocity-stage fixed-point loop

Shared verbatim by TwoStepRATTLENVE::integrateStepTwo and
TwoStepRATTLELangevin::integrateStepTwo.  `vel` is the stored velocity at
loop entry, `accel` the acceleration derived from the net force, `normal`
the gradient at the current position. -/

/-- All values computed by one execution of the velocity-stage loop body. -/
structure RattleVelBodyOut where
  residual : Vec3
  resid : ℚ
  nextVel2 : Vec3
  mu2 : ℚ
  deriving DecidableEq, Repr

/-- The updates of one velocity-stage loop body, with the scalar `beta` a
    parameter (it is instantiated by `rattleVelBody` below with the
    source's quotient). -/
def rattleVelBetaStep (vel accel normal : Vec3) (mass deltaT : ℚ)
    (next_vel : Vec3) (mu beta : ℚ) : RattleVelBodyOut :=
  let inv_mass : ℚ := 1 / mass
  let inv_alpha : ℚ := 1 / (-(1 / 2 * deltaT))
  let vel_dot := vsub accel (smul (mu * inv_mass) normal)
  let residual := vadd (vsub vel next_vel) (smul (1 / 2 * deltaT) vel_dot)
  let resid := dot normal next_vel * inv_mass
  let next_vel2 := vadd (vsub next_vel (smul beta normal)) residual
  let mu2 := mu - mass * beta * inv_alpha
  ⟨residual, resid, next_vel2, mu2⟩

/-- The source's beta of the velocity-stage body:
    `(mass*resid + dot(normal,residual)) / dot(normal,normal)`. -/
def rattleVelBeta (vel accel normal : Vec3) (mass deltaT : ℚ)
    (next_vel : Vec3) (mu : ℚ) : ℚ :=
  let inv_mass : ℚ := 1 / mass
  let vel_dot := vsub accel (smul (mu * inv_mass) normal)
  let residual := vadd (vsub vel next_vel) (smul (1 / 2 * deltaT) vel_dot)
  let resid := dot normal next_vel * inv_mass
  (mass * resid + dot normal residual) / dot normal normal

/-- One body of the do-while loop of the velocity stage. -/
def rattleVelBody (vel accel normal : Vec3) (mass deltaT : ℚ)
    (next_vel : Vec3) (mu : ℚ) : RattleVelBodyOut :=
  rattleVelBetaStep vel accel normal mass deltaT next_vel mu
    (rattleVelBeta vel accel normal mass deltaT next_vel mu)

/-- Result of the velocity-stage loop. -/
structure RattleVelResult where
  vHat : Vec3
  nextVel : Vec3
  mu : ℚ
  residual : Vec3
  resid : ℚ
  iters : ℕ
  converged : Bool
  deriving DecidableEq, Repr

/-- Exit record of the velocity-stage loop when the final body ran from
    state `(next_vel, mu)`. -/
def rattleVelExit (vel accel normal : Vec3) (mass deltaT eta : ℚ)
    (next_vel : Vec3) (mu : ℚ) (iters : ℕ) : RattleVelResult :=
  let b := rattleVelBody vel accel normal mass deltaT next_vel mu
  ⟨next_vel, b.nextVel2, b.mu2, b.residual, b.resid, iters + 1,
    maxNormMulLe b.residual b.resid mass eta⟩

/-- The velocity-stage do-while loop, with the same `remaining` convention
    as `rattlePosGo`. -/
def rattleVelGo (vel accel normal : Vec3) (mass deltaT eta : ℚ) :
    Vec3 → ℚ → ℕ → ℕ → RattleVelResult
  | next_vel, mu, iters, rem + 2 =>
    let b := rattleVelBody vel accel normal mass deltaT next_vel mu
    if maxNormMulLe b.residual b.resid mass eta then
      rattleVelExit vel accel normal mass deltaT eta next_vel mu iters
    else
      rattleVelGo vel accel normal mass deltaT eta b.nextVel2 b.mu2 (iters + 1) (rem + 1)
  | next_vel, mu, iters, _ =>
    rattleVelExit vel accel normal mass deltaT eta next_vel mu iters

/-- Entry point of the velocity-stage RATTLE solve: mu starts at 0 and the
    candidate velocity at the unconstrained half-step update
    `v + (deltaT/2) * a`; at most `maxiteration = 10` bodies execute. -/
def rattleVel (vel accel normal : Vec3) (mass deltaT eta : ℚ) : RattleVelResult :=
  rattleVelGo vel accel normal mass deltaT eta
    (vadd vel (smul (1 / 2 * deltaT) accel)) 0 0 10

/-- The velocity the source stores after the velocity-stage loop:
    `v += (deltaT/2) * (a - mu*inv_mass*normal)` with the final mu. -/
def rattleVelFinal (vel accel normal : Vec3) (mass deltaT eta : ℚ) : Vec3 :=
  let r := rattleVel vel accel normal mass deltaT eta
  vadd vel (smul (1 / 2 * deltaT) (vsub accel (smul (r.mu * (1 / mass)) normal)))

/-! ## Per-particle state

One record per particle, combining the separate arrays of the particle
store: position + type (Scalar4 pos), velocity + mass (Scalar4 vel),
acceleration, periodic image, orientation and angular-momentum quaternions,
net force, net torque, the six net-virial components, the diameter and the
persistent tag. -/

/-- An int3 image counter. -/
structure Int3 where
  ix : ℤ
  iy : ℤ
  iz : ℤ
  deriving DecidableEq, Repr

/-- A quaternion stored as a Scalar4. -/
structure Quat where
  qs : ℚ
  qx : ℚ
  qy : ℚ
  qz : ℚ
  deriving DecidableEq, Repr

/-- The six independent virial components, in the source's storage order
    (xx, xy, xz, yy, yz, zz). -/
structure Virial where
  v0 : ℚ
  v1 : ℚ
  v2 : ℚ
  v3 : ℚ
  v4 : ℚ
  v5 : ℚ
  deriving DecidableEq, Repr

/-- Full per-particle state. -/
structure Particle where
  pos : Vec3
  vel : Vec3
  accel : Vec3
  mass : ℚ
  diameter : ℚ
  typ : ℕ
  tag : ℕ
  image : Int3
  orientation : Quat
  angmom : Quat
  netForce : Vec3
  netTorque : Vec3
  netVirial : Virial
  deriving DecidableEq, Repr

/-- The zero vector (the source writes the components to 0.0 in place). -/
def vzero : Vec3 := ⟨0, 0, 0⟩

/-! ## TwoStepRATTLENVE -/

/-- Translational part of TwoStepRATTLENVE::integrateStepOne for one group
    member: optional zero-force override, the position-stage RATTLE solve,
    the half-step velocity store, the optional movement limit (applied to
    the displacement computed after the constraint solve, literally
    `d/len*limit_val` per component), and the position update.  The periodic
    wrap and the anisotropic rotational update are outside the embedded
    translational state. -/
def nveStepOnePart (M : Manifold) (sqrtQ : ℚ → ℚ) (limit : Bool)
    (limit_val : ℚ) (zero_force : Bool) (deltaT eta : ℚ) (p : Particle) :
    Particle :=
  let accel := if zero_force then vzero else p.accel
  let r := rattlePos M p.pos p.vel accel p.mass deltaT eta
  let dx := deltaT * r.halfVel.x
  let dy := deltaT * r.halfVel.y
  let dz := deltaT * r.halfVel.z
  let d : Vec3 :=
    if limit then
      let len := sqrtQ (dx * dx + dy * dy + dz * dz)
      if limit_val < len then ⟨dx / len * limit_val, dy / len * limit_val, dz / len * limit_val⟩
      else ⟨dx, dy, dz⟩
    else ⟨dx, dy, dz⟩
  { p with vel := r.halfVel, accel := accel, pos := vadd p.pos d }

/-- Translational part of TwoStepRATTLENVE::integrateStepTwo for one group
    member: acceleration from the net force (or zeroed), the
    velocity-stage RATTLE solve, the final velocity update with the solved
    multiplier, and the optional speed limit `|v|*deltaT ≤ limit_val`,
    literally `v/vel*limit_val/deltaT` per component. -/
def nveStepTwoPart (M : Manifold) (sqrtQ : ℚ → ℚ) (limit : Bool)
    (limit_val : ℚ) (zero_force : Bool) (deltaT eta : ℚ) (p : Particle) :
    Particle :=
  let inv_mass : ℚ := 1 / p.mass
  let accel := if zero_force then vzero else smul inv_mass p.netForce
  let normal := M.derivative p.pos
  let r := rattleVel p.vel accel normal p.mass deltaT eta
  let v := vadd p.vel (smul (1 / 2 * deltaT) (vsub accel (smul (r.mu * inv_mass) normal)))
  let v2 : Vec3 :=
    if limit then
      let vel := sqrtQ (v.x * v.x + v.y * v.y + v.z * v.z)
      if limit_val < vel * deltaT then
        ⟨v.x / vel * limit_val / deltaT, v.y / vel * limit_val / deltaT,
          v.z / vel * limit_val / deltaT⟩
      else v
    else v
  { p with vel := v2, accel := accel }

/-! ## TwoStepRATTLELangevin -/

/-- The identifiers the sampled sources pass as the first RandomGenerator
    argument (hoomd RNGIdentifier values). -/
inductive RNGIdent
  | TwoStepLangevin
  | TwoStepBD
  deriving DecidableEq, Repr

/-- An abstract random stream: identifier, user seed, particle tag,
    timestep, draw index.  All randomness in the embedded methods is drawn
    through such a stream, mirroring `RandomGenerator rng(identifier, seed,
    tag, timestep)` followed by sequential draws. -/
def RNGStream : Type := RNGIdent → ℕ → ℕ → ℕ → ℕ → ℚ

/-- Parameters of the Langevin method (TwoStepLangevinBase +
    TwoStepRATTLELangevin). -/
structure LangevinParams where
  T : ℚ
  seed : ℕ
  use_lambda : Bool
  lam_coeff : ℚ
  gamma : ℕ → ℚ
  noiseless_t : Bool
  deltaT : ℚ
  eta : ℚ

/-- The friction coefficient: `gamma = m_lambda*diameter` when the single
    scale factor is configured, else the per-type gamma. -/
def langevinGamma (P : LangevinParams) (p : Particle) : ℚ :=
  if P.use_lambda then P.lam_coeff * p.diameter else P.gamma p.typ

/-- The (unprojected) random direction: three uniform draws from the
    generator seeded by (TwoStepLangevin, seed, tag, timestep). -/
def langevinRandomDir (rs : RNGStream) (seed tag timestep : ℕ) : Vec3 :=
  ⟨rs RNGIdent.TwoStepLangevin seed tag timestep 0,
    rs RNGIdent.TwoStepLangevin seed tag timestep 1,
    rs RNGIdent.TwoStepLangevin seed tag timestep 2⟩

/-- Removal of the component of `r` along the unit gradient:
    `r - (r . n/|n|) * n/|n|`, with `|n| = sqrt(dot(normal,normal))`
    taken from the square-root oracle. -/
def tangentProjectDir (sqrtQ : ℚ → ℚ) (normal r : Vec3) : Vec3 :=
  let s := sqrtQ (dot normal normal)
  let projx := normal.x / s
  let projy := normal.y / s
  let projz := normal.z / s
  let proj_r := r.x * projx + r.y * projy + r.z * projz
  ⟨r.x - proj_r * projx, r.y - proj_r * projy, r.z - proj_r * projz⟩

/-- The stochastic force of TwoStepRATTLELangevin::integrateStepTwo
    (lines computing bd_fx/bd_fy/bd_fz): for positive temperature, an
    isotropic uniform direction projected onto the tangent plane and scaled
    by `sqrt(6*gamma*T/deltaT)` (zero when translational noise is
    suppressed), minus the friction `gamma*v`; for `T ≤ 0` the random part
    is zero. -/
def langevinBDForce (rs : RNGStream) (sqrtQ : ℚ → ℚ) (P : LangevinParams)
    (M : Manifold) (timestep : ℕ) (p : Particle) : Vec3 :=
  let gamma := langevinGamma P p
  let normal := M.derivative p.pos
  if 0 < P.T then
    let r := langevinRandomDir rs P.seed p.tag timestep
    let coeff0 := sqrtQ (6 * gamma * P.T / P.deltaT)
    let coeff := if P.noiseless_t then 0 else coeff0
    let rproj := tangentProjectDir sqrtQ normal r
    ⟨rproj.x * coeff - gamma * p.vel.x,
      rproj.y * coeff - gamma * p.vel.y,
      rproj.z * coeff - gamma * p.vel.z⟩
  else
    ⟨0 - gamma * p.vel.x, 0 - gamma * p.vel.y, 0 - gamma * p.vel.z⟩

/-- Translational part of TwoStepRATTLELangevin::integrateStepTwo for one
    group member: the stochastic force enters the acceleration, then the
    velocity-stage RATTLE solve and the final velocity update. -/
def langevinStepTwoPart (rs : RNGStream) (sqrtQ : ℚ → ℚ) (P : LangevinParams)
    (M : Manifold) (timestep : ℕ) (p : Particle) : Particle :=
  let bd := langevinBDForce rs sqrtQ P M timestep p
  let inv_mass : ℚ := 1 / p.mass
  let accel := smul inv_mass (vadd p.netForce bd)
  let normal := M.derivative p.pos
  let r := rattleVel p.vel accel normal p.mass P.deltaT P.eta
  let v := vadd p.vel (smul (1 / 2 * P.deltaT) (vsub accel (smul (r.mu * inv_mass) normal)))
  { p with vel := v, accel := accel }

/-- TwoStepRATTLELangevin::IncludeRATTLEForce for one group member: the
    position-stage solve determines the multiplier lambda, which is folded
    into the net force (`-= lambda*normal`), the six net-virial components
    (`-= lambda*n_i*x_j`, symmetrised), and the acceleration
    (`-= inv_mass*lambda*normal`).  Nothing else is touched. -/
def includeRattleForcePart (M : Manifold) (deltaT eta : ℚ) (p : Particle) :
    Particle :=
  let r := rattlePos M p.pos p.vel p.accel p.mass deltaT eta
  let normal := M.derivative p.pos
  let inv_mass : ℚ := 1 / p.mass
  { p with
    netForce := ⟨p.netForce.x - r.lam * normal.x,
      p.netForce.y - r.lam * normal.y,
      p.netForce.z - r.lam * normal.z⟩,
    netVirial := ⟨p.netVirial.v0 - r.lam * normal.x * p.pos.x,
      p.netVirial.v1 - 1 / 2 * r.lam * (normal.y * p.pos.x + normal.x * p.pos.y),
      p.netVirial.v2 - 1 / 2 * r.lam * (normal.z * p.pos.x + normal.x * p.pos.z),
      p.netVirial.v3 - r.lam * normal.y * p.pos.y,
      p.netVirial.v4 - 1 / 2 * r.lam * (normal.y * p.pos.z + normal.z * p.pos.y),
      p.netVirial.v5 - r.lam * normal.z * p.pos.z⟩,
    accel := ⟨p.accel.x - inv_mass * r.lam * normal.x,
      p.accel.y - inv_mass * r.lam * normal.y,
      p.accel.z - inv_mass * r.lam * normal.z⟩ }

/-- A CPU method loop over the members of its group: each member is mapped
    through the per-particle update in group order; the update of a member
    reads only that member's record. -/
def updateSystem (f : Particle → Particle) (group : List ℕ)
    (ps : ℕ → Particle) : ℕ → Particle :=
  group.foldl (fun acc j => Function.update acc j (f (acc j))) ps

/-- TwoStepRATTLELangevin::IncludeRATTLEForce over the whole group. -/
def IncludeRATTLEForce (M : Manifold) (deltaT eta : ℚ) (group : List ℕ)
    (ps : ℕ → Particle) : ℕ → Particle :=
  updateSystem (includeRattleForcePart M deltaT eta) group ps

/-- TwoStepRATTLELangevin::integrateStepTwo (translational part) over the
    whole group. -/
def langevinStepTwo (rs : RNGStream) (sqrtQ : ℚ → ℚ) (P : LangevinParams)
    (M : Manifold) (timestep : ℕ) (group : List ℕ) (ps : ℕ → Particle) :
    ℕ → Particle :=
  updateSystem (langevinStepTwoPart rs sqrtQ P M timestep) group ps

/-! ## GPU Brownian step-one kernel (gpu_rattle_brownian_step_one_kernel)

One thread of the kernel: the thread determines its particle through
`tag = d_groupTags[group_idx]; idx = d_rtag[tag]`, seeds its generator as
`RandomGenerator(RNGIdentifier::TwoStepBD, seed, tag, timestep)`, advances
the position by `(net_force + brownian_force) * deltaT/gamma` and redraws
the velocity from a normal distribution of width `sqrt(T/mass)`.  The
normal-distribution transform of a stream draw is abstracted as
`normalTransform sigma u`.  The periodic wrap and the rotational branch
are omitted as above. -/
def gpuRattleBrownianStepOneThread (rs : RNGStream)
    (normalTransform : ℚ → ℚ → ℚ) (sqrtQ : ℚ → ℚ)
    (use_lambda : Bool) (lam_coeff : ℚ) (gamma : ℕ → ℚ)
    (seed timestep : ℕ) (T deltaT : ℚ) (f_brownian : ℕ → Vec3)
    (groupTags : ℕ → ℕ) (rtag : ℕ → ℕ) (ps : ℕ → Particle)
    (group_idx : ℕ) : Particle :=
  let tag := groupTags group_idx
  let idx := rtag tag
  let p := ps idx
  let brownian_force := f_brownian tag
  let gam := if use_lambda then lam_coeff * p.diameter else gamma p.typ
  let deltaT_gamma := deltaT / gam
  let d : Vec3 := ⟨(p.netForce.x + brownian_force.x) * deltaT_gamma,
    (p.netForce.y + brownian_force.y) * deltaT_gamma,
    (p.netForce.z + brownian_force.z) * deltaT_gamma⟩
  let sigma := sqrtQ (T / p.mass)
  let v2 : Vec3 := ⟨normalTransform sigma (rs RNGIdent.TwoStepBD seed tag timestep 0),
    normalTransform sigma (rs RNGIdent.TwoStepBD seed tag timestep 1),
    normalTransform sigma (rs RNGIdent.TwoStepBD seed tag timestep 2)⟩
  { p with pos := vadd p.pos d, vel := v2 }

/-! ## IntegratorTwoStep: degree-of-freedom accounting -/

/-- The view of a registered integration method that the DOF queries use:
    its particle group (as a set of global member indices), whether it
    conserves momentum, and its translational and rotational DOF
    contributions for a query group. -/
structure MethodDOF where
  group : Finset ℕ
  isMomentumConserving : Bool
  translationalDOF : Finset ℕ → ℚ
  rotationalDOF : Finset ℕ → ℤ

/-- The translational DOF contribution of a generic method.  The doc
    comment of TwoStepRATTLELangevin::getNDOF records the base-class
    behaviour: a method adds D degrees of freedom per particle of the query
    group that is also in the group assigned to the method. -/
def baseMethodNDOF (ndim : ℕ) (mgroup query : Finset ℕ) : ℚ :=
  (ndim : ℚ) * ((query ∩ mgroup).card : ℚ)

/-- The RATTLE Langevin method overrides getNDOF with (D - 1) per
    intersecting particle (TwoStepRATTLELangevin::getNDOF). -/
def rattleLangevinNDOF (ndim : ℕ) (mgroup query : Finset ℕ) : ℚ :=
  ((ndim : ℚ) - 1) * ((query ∩ mgroup).card : ℚ)

/-- IntegratorTwoStep::getTranslationalDOF.  The momentum-conservation
    correction `periodic_dof_removed` is nonzero only when the QUERY group
    holds every particle of the system, exactly one method is registered,
    and that method conserves momentum; it then equals
    `ndim * (|group| / nGlobal)`.  The per-method contributions are summed
    and `getNDOFRemoved` (constraint-force accounting outside the sampled
    sources, abstracted as `ndofRemoved`) is subtracted. -/
def getTranslationalDOF (ndim nGlobal : ℕ) (ndofRemoved : Finset ℕ → ℚ)
    (methods : List MethodDOF) (group : Finset ℕ) : ℚ :=
  let firstConserving : Bool :=
    match methods with
    | m :: _ => m.isMomentumConserving
    | [] => false
  let periodic_dof_removed : ℚ :=
    if group.card = nGlobal ∧ methods.length = 1 ∧ firstConserving = true then
      (ndim : ℚ) * ((group.card : ℚ) / (nGlobal : ℚ))
    else 0
  let total : ℚ := (methods.map fun m => m.translationalDOF group).sum
  total - periodic_dof_removed - ndofRemoved group

/-- The anisotropic-mode selector (IntegratorTwoStep::AnisotropicMode). -/
inductive AnisotropicMode
  | Anisotropic
  | Isotropic
  | Automatic
  deriving DecidableEq, Repr

/-- The mode resolution inside IntegratorTwoStep::getRotationalDOF: the
    switch has a case for `Anisotropic` and a combined
    `case Automatic: default:`, so an explicit `Isotropic` setting falls
    into the default and uses the automatic detection result
    (`getAnisotropic()`, abstracted as `autoAniso`). -/
def rotationalDOFAniso (mode : AnisotropicMode) (autoAniso : Bool) : Bool :=
  match mode with
  | AnisotropicMode.Anisotropic => true
  | _ => autoAniso

/-- IntegratorTwoStep::getRotationalDOF: resolve the mode independently
    (the method list may be queried before prepRun), then sum the
    per-method rotational contributions only when the resolved flag is
    true. -/
def getRotationalDOF (mode : AnisotropicMode) (autoAniso : Bool)
    (methods : List MethodDOF) (group : Finset ℕ) : ℤ :=
  if rotationalDOFAniso mode autoAniso = true then
    (methods.map fun m => m.rotationalDOF group).sum
  else 0

/-- The mode resolution inside IntegratorTwoStep::prepRun, which has an
    explicit `case Isotropic:` that leaves the flag false; the result is
    pushed into every method (setAnisotropic) for the duration of the
    run. -/
def prepRunAniso (mode : AnisotropicMode) (autoAniso : Bool) : Bool :=
  match mode with
  | AnisotropicMode.Anisotropic => true
  | AnisotropicMode.Isotropic => false
  | AnisotropicMode.Automatic => autoAniso

/-! ## IntegratorTwoStep: method insertion -/

/-- The view of a method that insertion uses: its group and its deltaT. -/
structure MethodReg where
  group : Finset ℕ
  deltaT : ℚ
  deriving DecidableEq

/-- The scheduler state touched by addIntegrationMethod. -/
structure SchedulerState where
  methods : List MethodReg
  deltaT : ℚ
  deriving DecidableEq

/-- IntegratorTwoStep::addIntegrationMethod: if the new method's group has a
    nonempty intersection (ParticleGroup::groupIntersection) with the group
    of any already-registered method, an error is thrown before the list is
    touched; otherwise the method receives the scheduler's deltaT and is
    appended. -/
def addIntegrationMethod (s : SchedulerState) (new_method : MethodReg) :
    Except String SchedulerState :=
  if s.methods.any fun current => 0 < (new_method.group ∩ current.group).card then
    Except.error "Error adding integration method"
  else
    Except.ok { s with
      methods := s.methods ++ [{ new_method with deltaT := s.deltaT }] }

/-! ## IntegratorTwoStep::update: the per-timestep state machine

The update sequence is embedded as the trace of externally visible
operations it performs, in program order. -/

/-- The operations IntegratorTwoStep::update invokes, with the timestep
    argument each receives. -/
inductive Event
  | setDeltaT (i : ℕ) (dt : ℚ)
  | stepOne (i : ℕ) (t : ℕ)
  | communicate (t : ℕ)
  | updateRigidBodies (t : ℕ)
  | computeNetForceGPU (t : ℕ)
  | computeNetForce (t : ℕ)
  | halfStepHookUpdate (t : ℕ)
  | stepTwo (i : ℕ) (t : ℕ)
  deriving DecidableEq, Repr

/-- The configuration bits update branches on: number of registered
    methods, the scheduler's deltaT, whether a communicator is attached
    (ENABLE_MPI path), whether CUDA is enabled, and whether a half-step
    hook is registered. -/
structure UpdateConfig where
  nMethods : ℕ
  deltaT : ℚ
  hasComm : Bool
  cudaEnabled : Bool
  hasHook : Bool
  deriving DecidableEq

/-- IntegratorTwoStep::update(timestep), as its trace of operations:
    for every method in registration order setDeltaT then integrateStepOne;
    then either Communicator::communicate(t+1) or
    updateRigidBodies(t+1); then computeNetForceGPU(t+1) or
    computeNetForce(t+1); then the optional half-step hook with t+1; then
    integrateStepTwo for every method in registration order. -/
def update (c : UpdateConfig) (timestep : ℕ) : List Event :=
  let stepOneEvents :=
    (List.range c.nMethods).flatMap fun i =>
      [Event.setDeltaT i c.deltaT, Event.stepOne i timestep]
  let migrateEvents :=
    if c.hasComm then [Event.communicate (timestep + 1)]
    else [Event.updateRigidBodies (timestep + 1)]
  let forceEvents :=
    if c.cudaEnabled then [Event.computeNetForceGPU (timestep + 1)]
    else [Event.computeNetForce (timestep + 1)]
  let hookEvents :=
    if c.hasHook then [Event.halfStepHookUpdate (timestep + 1)] else []
  let stepTwoEvents := (List.range c.nMethods).map fun i => Event.stepTwo i timestep
  stepOneEvents ++ migrateEvents ++ forceEvents ++ hookEvents ++ stepTwoEvents

/-- Is an event the migration/communication (or rigid-body slaving)
    round? -/
def isMigrationEvent : Event → Bool
  | Event.communicate _ => true
  | Event.updateRigidBodies _ => true
  | _ => false

/-- Is an event the net-force/virial recomputation? -/
def isForceRecomputeEvent : Event → Bool
  | Event.computeNetForceGPU _ => true
  | Event.computeNetForce _ => true
  | _ => false

/-! ## Concrete example data -/

/-- The plane z = 0 as a manifold: implicit function value z, constant
    unit gradient (0,0,1) (the simplest of the source's manifold
    variants). -/
def planeManifold : Manifold := ⟨fun v => v.z, fun _ => ⟨0, 0, 1⟩⟩

/-- A unit-mass particle a distance eta = 1/100 above the plane z = 0,
    moving away from it at speed 1/100, with no force on it. -/
def cex3Particle : Particle :=
  { pos := ⟨0, 0, 1 / 100⟩, vel := ⟨0, 0, 1 / 100⟩, accel := ⟨0, 0, 0⟩, mass := 1,
    diameter := 1, typ := 0, tag := 0, image := ⟨0, 0, 0⟩,
    orientation := ⟨1, 0, 0, 0⟩, angmom := ⟨0, 0, 0, 0⟩,
    netForce := ⟨0, 0, 0⟩, netTorque := ⟨0, 0, 0⟩, netVirial := ⟨0, 0, 0, 0, 0, 0⟩ }

/-- A unit-mass particle at rest exactly on the plane z = 0. -/
def restParticle : Particle :=
  { pos := ⟨0, 0, 0⟩, vel := ⟨0, 0, 0⟩, accel := ⟨0, 0, 0⟩, mass := 1,
    diameter := 1, typ := 0, tag := 7, image := ⟨0, 0, 0⟩,
    orientation := ⟨1, 0, 0, 0⟩, angmom := ⟨0, 0, 0, 0⟩,
    netForce := ⟨0, 0, 0⟩, netTorque := ⟨0, 0, 0⟩, netVirial := ⟨0, 0, 0, 0, 0, 0⟩ }

/-- Concrete Langevin parameters: T = 1, seed 42, per-type gamma 2,
    deltaT = 1, eta = 1/100, no noise suppression, no single scale
    factor. -/
def witnessLangevinParams : LangevinParams :=
  ⟨1, 42, false, 1, fun _ => 2, false, 1, 1 / 100⟩

/-- A concrete random stream that always draws 1. -/
def witnessStream : RNGStream := fun _ _ _ _ _ => 1

/-- A square-root oracle that answers 1 (correct at the argument 1). -/
def oneSqrt : ℚ → ℚ := fun _ => 1

/-! ## General lemmas about the loops -/

/-- Every run of the position-stage loop ends in an exit record whose final
    body ran from some reachable state, with the iteration count bounded by
    the remaining-iteration budget (and at least one body always runs). -/
theorem rattlePosGo_exit (M : Manifold) (pos vel accel normal : Vec3)
    (inv_mass deltaT eta : ℚ) :
    ∀ (rem : ℕ) (next_pos : Vec3) (lam : ℚ) (iters : ℕ),
      ∃ np l i,
        rattlePosGo M pos vel accel normal inv_mass deltaT eta next_pos lam iters rem
          = rattlePosExit M pos vel accel normal inv_mass deltaT eta np l i
        ∧ iters ≤ i ∧ i + 1 ≤ iters + max rem 1 := by
  intro rem
  induction rem with
  | zero =>
    intro next_pos lam iters
    exact ⟨next_pos, lam, iters, rfl, le_refl _, by omega⟩
  | succ r ih =>
    intro next_pos lam iters
    cases r with
    | zero => exact ⟨next_pos, lam, iters, rfl, le_refl _, by omega⟩
    | succ r2 =>
      rw [rattlePosGo]
      by_cases h : maxNormLe
          (rattlePosBody M pos vel accel normal inv_mass deltaT next_pos lam).residual
          (rattlePosBody M pos vel accel normal inv_mass deltaT next_pos lam).resid eta
      · refine ⟨next_pos, lam, iters, ?_, le_refl _, by omega⟩
        simp [h]
      · obtain ⟨np, l, i, heq, h1, h2⟩ :=
          ih (rattlePosBody M pos vel accel normal inv_mass deltaT next_pos lam).nextPos2
            (rattlePosBody M pos vel accel normal inv_mass deltaT next_pos lam).lam2
            (iters + 1)
        refine ⟨np, l, i, ?_, by omega, by omega⟩
        simp [h, heq]

/-- Structural facts about a position-stage exit record: the constraint
    residual is the implicit-function value at the iterate the test was
    evaluated at; the position the method stores afterwards
    (`pos + deltaT * half_vel`) is that iterate plus the vector residual;
    the convergence flag is exactly the tolerance test at exit; the
    iteration count is one more than the count at the start of the final
    body. -/
theorem rattlePosExit_spec (M : Manifold) (pos vel accel normal : Vec3)
    (inv_mass deltaT eta : ℚ) (np : Vec3) (l : ℚ) (i : ℕ) :
    (rattlePosExit M pos vel accel normal inv_mass deltaT eta np l i).resid
        = M.implicit_function
            (rattlePosExit M pos vel accel normal inv_mass deltaT eta np l i).xHat
    ∧ vadd pos (smul deltaT
          (rattlePosExit M pos vel accel normal inv_mass deltaT eta np l i).halfVel)
        = vadd (rattlePosExit M pos vel accel normal inv_mass deltaT eta np l i).xHat
            (rattlePosExit M pos vel accel normal inv_mass deltaT eta np l i).residual
    ∧ ((rattlePosExit M pos vel accel normal inv_mass deltaT eta np l i).converged = true
        ↔ maxNormLe
            (rattlePosExit M pos vel accel normal inv_mass deltaT eta np l i).residual
            (rattlePosExit M pos vel accel normal inv_mass deltaT eta np l i).resid eta
            = true)
    ∧ (rattlePosExit M pos vel accel normal inv_mass deltaT eta np l i).iters = i + 1 := by
  refine ⟨rfl, ?_, Iff.rfl, rfl⟩
  simp only [rattlePosExit, rattlePosBody, vadd, vsub, smul]
  rw [Vec3.mk.injEq]
  refine ⟨by ring, by ring, by ring⟩

/-- The same facts transported to the entry point `rattlePos`, together
    with the iteration bounds `1 ≤ iters ≤ 10`. -/
theorem rattlePos_spec (M : Manifold) (pos vel accel : Vec3)
    (mass deltaT eta : ℚ) :
    (rattlePos M pos vel accel mass deltaT eta).resid
        = M.implicit_function (rattlePos M pos vel accel mass deltaT eta).xHat
    ∧ vadd pos (smul deltaT (rattlePos M pos vel accel mass deltaT eta).halfVel)
        = vadd (rattlePos M pos vel accel mass deltaT eta).xHat
            (rattlePos M pos vel accel mass deltaT eta).residual
    ∧ ((rattlePos M pos vel accel mass deltaT eta).converged = true
        ↔ maxNormLe (rattlePos M pos vel accel mass deltaT eta).residual
            (rattlePos M pos vel accel mass deltaT eta).resid eta = true)
    ∧ 1 ≤ (rattlePos M pos vel accel mass deltaT eta).iters
    ∧ (rattlePos M pos vel accel mass deltaT eta).iters ≤ 10 := by
  obtain ⟨np, l, i, heq, h1, h2⟩ :=
    rattlePosGo_exit M pos vel accel (M.derivative pos) (1 / mass) deltaT eta 10 pos 0 0
  have hspec := rattlePosExit_spec M pos vel accel (M.derivative pos) (1 / mass)
    deltaT eta np l i
  rw [rattlePos, heq]
  exact ⟨hspec.1, hspec.2.1, hspec.2.2.1, by omega, by omega⟩

/-- Every run of the velocity-stage loop ends in an exit record, with the
    same iteration-count bounds as the position stage. -/
theorem rattleVelGo_exit (vel accel normal : Vec3) (mass deltaT eta : ℚ) :
    ∀ (rem : ℕ) (next_vel : Vec3) (mu : ℚ) (iters : ℕ),
      ∃ nv m i,
        rattleVelGo vel accel normal mass deltaT eta next_vel mu iters rem
          = rattleVelExit vel accel normal mass deltaT eta nv m i
        ∧ iters ≤ i ∧ i + 1 ≤ iters + max rem 1 := by
  intro rem
  induction rem with
  | zero =>
    intro next_vel mu iters
    exact ⟨next_vel, mu, iters, rfl, le_refl _, by omega⟩
  | succ r ih =>
    intro next_vel mu iters
    cases r with
    | zero => exact ⟨next_vel, mu, iters, rfl, le_refl _, by omega⟩
    | succ r2 =>
      rw [rattleVelGo]
      by_cases h : maxNormMulLe
          (rattleVelBody vel accel normal mass deltaT next_vel mu).residual
          (rattleVelBody vel accel normal mass deltaT next_vel mu).resid mass eta
      · refine ⟨next_vel, mu, iters, ?_, le_refl _, by omega⟩
        simp [h]
      · obtain ⟨nv, m, i, heq, h1, h2⟩ :=
          ih (rattleVelBody vel accel normal mass deltaT next_vel mu).nextVel2
            (rattleVelBody vel accel normal mass deltaT next_vel mu).mu2 (iters + 1)
        refine ⟨nv, m, i, ?_, by omega, by omega⟩
        simp [h, heq]

/-- The velocity the method stores after a body
    (`v + (deltaT/2)*(a - mu*inv_mass*normal)` with the body's updated mu)
    is exactly the body's updated candidate velocity; the multiplier and
    candidate updates use the same beta, so this holds for any beta and
    only needs the mass and the timestep to be nonzero. -/
theorem rattleVelBetaStep_stored (vel accel normal : Vec3) (mass deltaT : ℚ)
    (nv : Vec3) (mu beta : ℚ) (hm : mass ≠ 0) (hd : deltaT ≠ 0) :
    vadd vel (smul (1 / 2 * deltaT)
        (vsub accel
          (smul ((rattleVelBetaStep vel accel normal mass deltaT nv mu beta).mu2 * (1 / mass))
            normal)))
      = (rattleVelBetaStep vel accel normal mass deltaT nv mu beta).nextVel2 := by
  have hmc : mass * (1 / mass) = 1 := by field_simp
  have hdc : (1 / 2 * deltaT) * (1 / (-(1 / 2 * deltaT))) = -1 := by field_simp
  simp only [rattleVelBetaStep, vadd, vsub, smul, dot]
  rw [Vec3.mk.injEq]
  refine ⟨?_, ?_, ?_⟩
  · linear_combination (1 / 2 * deltaT * beta * (1 / (-(1 / 2 * deltaT))) * normal.x) * hmc
      + (beta * normal.x) * hdc
  · linear_combination (1 / 2 * deltaT * beta * (1 / (-(1 / 2 * deltaT))) * normal.y) * hmc
      + (beta * normal.y) * hdc
  · linear_combination (1 / 2 * deltaT * beta * (1 / (-(1 / 2 * deltaT))) * normal.z) * hmc
      + (beta * normal.z) * hdc

/-- After a body of the velocity-stage loop run with the source's beta,
    the updated candidate velocity is exactly orthogonal to the manifold
    gradient (the constraint `n . v = 0` is linear, so the solve lands on
    the tangent plane in one body), provided the mass is nonzero and the
    gradient is non-degenerate at the particle position. -/
theorem rattleVelBody_orth (vel accel normal : Vec3) (mass deltaT : ℚ)
    (nv : Vec3) (mu : ℚ) (hm : mass ≠ 0) (hn : dot normal normal ≠ 0) :
    dot normal (rattleVelBody vel accel normal mass deltaT nv mu).nextVel2 = 0 := by
  simp only [rattleVelBody, rattleVelBetaStep, rattleVelBeta, vadd, vsub, smul, dot] at *
  field_simp
  ring

/-- The stored-velocity identity transported to the source body. -/
theorem rattleVelBody_stored (vel accel normal : Vec3) (mass deltaT : ℚ)
    (nv : Vec3) (mu : ℚ) (hm : mass ≠ 0) (hd : deltaT ≠ 0) :
    vadd vel (smul (1 / 2 * deltaT)
        (vsub accel (smul ((rattleVelBody vel accel normal mass deltaT nv mu).mu2 * (1 / mass))
          normal)))
      = (rattleVelBody vel accel normal mass deltaT nv mu).nextVel2 :=
  rattleVelBetaStep_stored vel accel normal mass deltaT nv mu
    (rattleVelBeta vel accel normal mass deltaT nv mu) hm hd

/-- Facts about the entry point `rattleVel` (for nonzero mass and timestep
    and a non-degenerate gradient): the velocity the method stores
    afterwards (`rattleVelFinal`) is the loop's final candidate velocity,
    that velocity is exactly orthogonal to the gradient, and between 1 and
    10 bodies execute. -/
theorem rattleVel_spec (vel accel normal : Vec3) (mass deltaT eta : ℚ)
    (hm : mass ≠ 0) (hd : deltaT ≠ 0) (hn : dot normal normal ≠ 0) :
    rattleVelFinal vel accel normal mass deltaT eta
        = (rattleVel vel accel normal mass deltaT eta).nextVel
    ∧ dot normal (rattleVel vel accel normal mass deltaT eta).nextVel = 0
    ∧ 1 ≤ (rattleVel vel accel normal mass deltaT eta).iters
    ∧ (rattleVel vel accel normal mass deltaT eta).iters ≤ 10 := by
  obtain ⟨nv, m, i, heq, h1, h2⟩ :=
    rattleVelGo_exit vel accel normal mass deltaT eta 10
      (vadd vel (smul (1 / 2 * deltaT) accel)) 0 0
  have hstored := rattleVelBody_stored vel accel normal mass deltaT nv m hm hd
  have horth := rattleVelBody_orth vel accel normal mass deltaT nv m hm hn
  have hiter : (rattleVelExit vel accel normal mass deltaT eta nv m i).iters = i + 1 := rfl
  rw [rattleVelFinal, rattleVel, heq]
  refine ⟨?_, ?_, by omega, by omega⟩
  · exact hstored
  · exact horth

/-- A group fold where each member's update reads only that member's
    record: members are mapped through the per-particle update, everything
    else is untouched. -/
theorem updateSystem_apply (f : Particle → Particle) :
    ∀ (group : List ℕ) (ps : ℕ → Particle) (j : ℕ), group.Nodup →
      updateSystem f group ps j = if j ∈ group then f (ps j) else ps j := by
  intro group
  induction group with
  | nil =>
    intro ps j _
    simp [updateSystem]
  | cons a g ih =>
    intro ps j hnd
    have ha : a ∉ g := (List.nodup_cons.mp hnd).1
    have hg : g.Nodup := (List.nodup_cons.mp hnd).2
    have hstep : updateSystem f (a :: g) ps
        = updateSystem f g (Function.update ps a (f (ps a))) := by
      simp [updateSystem, Function.update_apply]
    rw [hstep, ih _ j hg]
    by_cases hj : j ∈ g
    · have hja : j ≠ a := fun h => ha (h ▸ hj)
      simp [Function.update_apply, hja, hj, List.mem_cons]
    · by_cases hja : j = a
      · subst hja
        simp [Function.update_apply, hj]
      · simp [Function.update_apply, hja, hj, List.mem_cons]

/-! ## Claims about the scheduler -/

/-- C1.  Evaluation of IntegratorTwoStep::getTranslationalDOF for a
    100-particle 3D system with exactly one momentum-conserving method
    spanning every particle (base-class DOF counting, no constraint DOF
    removed): the whole-population query reports `300 - 3 = 297`, but a
    50-particle subset query reports `150`, not the proportional
    `148.5` promised by the function's own doc comment (the
    `periodic_dof_removed` branch requires the QUERY group to span the
    population, so the correction is never distributed to strict
    subsets). -/
theorem claim1_translational_dof_at_failing_input :
    getTranslationalDOF 3 100 (fun _ => 0)
        [⟨Finset.range 100, true, baseMethodNDOF 3 (Finset.range 100), fun _ => 0⟩]
        (Finset.range 100) = 297
    ∧ getTranslationalDOF 3 100 (fun _ => 0)
        [⟨Finset.range 100, true, baseMethodNDOF 3 (Finset.range 100), fun _ => 0⟩]
        (Finset.range 50) = 150
    ∧ (150 : ℚ) ≠ 297 / 2 := by
  have h1 : (Finset.range 100 ∩ Finset.range 100) = Finset.range 100 := Finset.inter_self _
  have h2 : (Finset.range 50 ∩ Finset.range 100) = Finset.range 50 :=
    Finset.inter_eq_left.mpr (Finset.range_subset.mpr (by norm_num))
  refine ⟨?_, ?_, by norm_num⟩
  · simp [getTranslationalDOF, baseMethodNDOF, h1, Finset.card_range]
    norm_num
  · simp [getTranslationalDOF, baseMethodNDOF, h2, Finset.card_range]
    norm_num

/-- C2.  IntegratorTwoStep::addIntegrationMethod: a new method whose group
    intersects the group of any registered method is rejected with the
    fatal error before the method list is touched (the embedding returns
    the error without producing a new state, mirroring the exception thrown
    before the push_back); when every intersection is empty the method is
    appended after receiving the scheduler's deltaT. -/
theorem claim2_addIntegrationMethod_disjointness (s : SchedulerState) (m : MethodReg) :
    ((∃ current ∈ s.methods, (m.group ∩ current.group).Nonempty) →
      addIntegrationMethod s m = Except.error "Error adding integration method")
    ∧ ((∀ current ∈ s.methods, m.group ∩ current.group = ∅) →
      addIntegrationMethod s m
        = Except.ok { s with methods := s.methods ++ [{ m with deltaT := s.deltaT }] }) := by
  constructor
  · rintro ⟨current, hc, hne⟩
    have hb : (s.methods.any fun current => 0 < (m.group ∩ current.group).card) = true := by
      refine List.any_eq_true.mpr ⟨current, hc, ?_⟩
      simpa [Finset.card_pos] using hne
    rw [addIntegrationMethod, hb]
    rfl
  · intro h
    have hb : (s.methods.any fun current => 0 < (m.group ∩ current.group).card) = false := by
      rw [List.any_eq_false]
      intro current hc
      simp [h current hc]
    rw [addIntegrationMethod, hb]
    rfl

/-- Witness for C2 at a concrete scheduler state: a registered method on
    `{0, 1}`; inserting a method on `{1, 2}` errors, inserting one on
    `{2, 3}` appends it with the scheduler's deltaT. -/
theorem claim2_witness :
    (∃ current ∈ [({ group := {0, 1}, deltaT := 1 } : MethodReg)],
        (({1, 2} : Finset ℕ) ∩ current.group).Nonempty)
    ∧ addIntegrationMethod ⟨[{ group := {0, 1}, deltaT := 1 }], 1 / 200⟩
        { group := {1, 2}, deltaT := 1 }
        = Except.error "Error adding integration method"
    ∧ addIntegrationMethod ⟨[{ group := {0, 1}, deltaT := 1 }], 1 / 200⟩
        { group := {2, 3}, deltaT := 1 }
        = Except.ok ⟨[{ group := {0, 1}, deltaT := 1 },
            { group := {2, 3}, deltaT := 1 / 200 }], 1 / 200⟩ := by
  have h1 : ∃ current ∈ [({ group := {0, 1}, deltaT := 1 } : MethodReg)],
      (({1, 2} : Finset ℕ) ∩ current.group).Nonempty := by
    refine ⟨{ group := {0, 1}, deltaT := 1 }, by simp, ⟨1, by decide⟩⟩
  refine ⟨h1, ?_, ?_⟩
  · exact (claim2_addIntegrationMethod_disjointness
      ⟨[{ group := {0, 1}, deltaT := 1 }], 1 / 200⟩ { group := {1, 2}, deltaT := 1 }).1 h1
  · exact (claim2_addIntegrationMethod_disjointness
      ⟨[{ group := {0, 1}, deltaT := 1 }], 1 / 200⟩ { group := {2, 3}, deltaT := 1 }).2
      (by intro c hc; simp at hc; subst hc; decide)

/-- C5, counterexample.  With the mode explicitly set to Isotropic while an
    orientation-coupled force is present (`autoAniso = true`), prepRun
    resolves the anisotropic mode to false, yet getRotationalDOF returns
    the methods' rotational sum (3 here), not 0: its switch lets the
    explicit Isotropic setting fall into the automatic-detection default. -/
theorem claim5_counterexample :
    prepRunAniso AnisotropicMode.Isotropic true = false
    ∧ getRotationalDOF AnisotropicMode.Isotropic true
        [⟨Finset.range 4, true, fun _ => 0, fun _ => 3⟩] (Finset.range 4) ≠ 0 := by
  refine ⟨rfl, ?_⟩
  simp [getRotationalDOF, rotationalDOFAniso]

/-- C5, amended.  getRotationalDOF resolves the anisotropic flag itself:
    true for an explicit Anisotropic setting, and the automatic detection
    result for every other setting, including explicit Isotropic.  It
    returns 0 exactly when that flag is false and otherwise the sum of the
    per-method rotational contributions.  prepRun's once-per-run resolution
    (pushed into the methods and cached) agrees with it except in the
    explicit-Isotropic case, which prepRun resolves to false. -/
theorem claim5_amended_rotational_dof (mode : AnisotropicMode) (autoAniso : Bool)
    (methods : List MethodDOF) (group : Finset ℕ) :
    getRotationalDOF mode autoAniso methods group
      = (if mode = AnisotropicMode.Anisotropic ∨ autoAniso = true then
          (methods.map fun m => m.rotationalDOF group).sum
        else 0)
    ∧ (mode ≠ AnisotropicMode.Isotropic →
        rotationalDOFAniso mode autoAniso = prepRunAniso mode autoAniso) := by
  constructor
  · cases mode <;> cases autoAniso <;>
      simp [getRotationalDOF, rotationalDOFAniso]
  · intro h
    cases mode <;> simp_all [rotationalDOFAniso, prepRunAniso]

/-- Witness for C5's amended theorem in Automatic mode with anisotropic
    forces detected. -/
theorem claim5_witness :
    getRotationalDOF AnisotropicMode.Automatic true
        [⟨Finset.range 4, true, fun _ => 0, fun _ => 3⟩] (Finset.range 4)
      = (if AnisotropicMode.Automatic = AnisotropicMode.Anisotropic ∨ true = true then
          ([⟨Finset.range 4, true, fun _ => 0, fun _ => 3⟩].map
            fun m => MethodDOF.rotationalDOF m (Finset.range 4)).sum
        else 0)
    ∧ rotationalDOFAniso AnisotropicMode.Automatic true
        = prepRunAniso AnisotropicMode.Automatic true := by
  refine ⟨?_, ?_⟩
  · exact (claim5_amended_rotational_dof AnisotropicMode.Automatic true
      [⟨Finset.range 4, true, fun _ => 0, fun _ => 3⟩] (Finset.range 4)).1
  · exact (claim5_amended_rotational_dof AnisotropicMode.Automatic true
      [⟨Finset.range 4, true, fun _ => 0, fun _ => 3⟩] (Finset.range 4)).2
      (by intro h; cases h)

/-- C7.  IntegratorTwoStep::update(t) performs, in this exact order: for
    every registered method in registration order a deltaT propagation
    immediately followed by its step-one; exactly one round of
    communication (with a communicator) or rigid-body constituent slaving
    (without one), at t+1; exactly one net-force recomputation at t+1 on
    the configured backend; the optional half-step hook at t+1; and then
    step-two for every method in registration order. -/
theorem claim7_update_order (c : UpdateConfig) (timestep : ℕ) :
    update c timestep
      = ((List.range c.nMethods).flatMap fun i =>
            [Event.setDeltaT i c.deltaT, Event.stepOne i timestep])
        ++ [if c.hasComm = true then Event.communicate (timestep + 1)
            else Event.updateRigidBodies (timestep + 1)]
        ++ [if c.cudaEnabled = true then Event.computeNetForceGPU (timestep + 1)
            else Event.computeNetForce (timestep + 1)]
        ++ (if c.hasHook = true then [Event.halfStepHookUpdate (timestep + 1)] else [])
        ++ ((List.range c.nMethods).map fun i => Event.stepTwo i timestep)
    ∧ ((update c timestep).countP fun e => isMigrationEvent e) = 1
    ∧ ((update c timestep).countP fun e => isForceRecomputeEvent e) = 1 := by
  obtain ⟨n, dt, hc, cu, hh⟩ := c
  have hmig0 : ∀ (l : List ℕ),
      ((l.flatMap fun i => [Event.setDeltaT i dt, Event.stepOne i timestep]).countP
        fun e => isMigrationEvent e) = 0 := by
    intro l
    rw [List.countP_eq_zero]
    intro e he
    obtain ⟨i, _, hi⟩ := List.mem_flatMap.mp he
    simp only [List.mem_cons, List.not_mem_nil, or_false] at hi
    rcases hi with h | h <;> subst h <;> simp [isMigrationEvent]
  have hforce0 : ∀ (l : List ℕ),
      ((l.flatMap fun i => [Event.setDeltaT i dt, Event.stepOne i timestep]).countP
        fun e => isForceRecomputeEvent e) = 0 := by
    intro l
    rw [List.countP_eq_zero]
    intro e he
    obtain ⟨i, _, hi⟩ := List.mem_flatMap.mp he
    simp only [List.mem_cons, List.not_mem_nil, or_false] at hi
    rcases hi with h | h <;> subst h <;> simp [isForceRecomputeEvent]
  have hmig2 : ∀ (l : List ℕ),
      ((l.map fun i => Event.stepTwo i timestep).countP fun e => isMigrationEvent e) = 0 := by
    intro l
    rw [List.countP_eq_zero]
    intro e he
    obtain ⟨i, _, hi⟩ := List.mem_map.mp he
    subst hi
    simp [isMigrationEvent]
  have hforce2 : ∀ (l : List ℕ),
      ((l.map fun i => Event.stepTwo i timestep).countP
        fun e => isForceRecomputeEvent e) = 0 := by
    intro l
    rw [List.countP_eq_zero]
    intro e he
    obtain ⟨i, _, hi⟩ := List.mem_map.mp he
    subst hi
    simp [isForceRecomputeEvent]
  refine ⟨?_, ?_, ?_⟩
  · cases hc <;> cases cu <;> cases hh <;> rfl
  · simp only [update]
    rw [List.countP_append, List.countP_append, List.countP_append, List.countP_append,
      hmig0, hmig2]
    cases hc <;> cases cu <;> cases hh <;>
      simp [List.countP_cons, isMigrationEvent]
  · simp only [update]
    rw [List.countP_append, List.countP_append, List.countP_append, List.countP_append,
      hforce0, hforce2]
    cases hc <;> cases cu <;> cases hh <;>
      simp [List.countP_cons, isForceRecomputeEvent]

/-- Iteration-count bounds for the velocity-stage entry point. -/
theorem rattleVel_iters_bounds (vel accel normal : Vec3) (mass deltaT eta : ℚ) :
    1 ≤ (rattleVel vel accel normal mass deltaT eta).iters
    ∧ (rattleVel vel accel normal mass deltaT eta).iters ≤ 10 := by
  obtain ⟨nv, m, i, heq, h1, h2⟩ :=
    rattleVelGo_exit vel accel normal mass deltaT eta 10
      (vadd vel (smul (1 / 2 * deltaT) accel)) 0 0
  have hiter : (rattleVelExit vel accel normal mass deltaT eta nv m i).iters = i + 1 := rfl
  rw [rattleVel, heq]
  omega

/-- C4.  Both RATTLE fixed-point loops (position stage, shared by
    TwoStepRATTLENVE::integrateStepOne and
    TwoStepRATTLELangevin::IncludeRATTLEForce, and velocity stage, shared
    by TwoStepRATTLENVE::integrateStepTwo and
    TwoStepRATTLELangevin::integrateStepTwo) execute between 1 and 10
    bodies on every input and always return; there is no error path in the
    embedding, mirroring the absence of any throw or warning in the source
    loops.  Whether or not the tolerance was met at exit, the loop outputs
    are stored and used as-is: step-one stores the final half-step
    velocity unconditionally, and IncludeRATTLEForce folds the final
    multiplier into the net force unconditionally. -/
theorem claim4_iteration_cap (M : Manifold) (pos vel accel : Vec3)
    (mass deltaT eta : ℚ) (vel2 accel2 normal : Vec3) (mass2 deltaT2 eta2 : ℚ)
    (sqrtQ : ℚ → ℚ) (limit : Bool) (limit_val : ℚ) (zero_force : Bool)
    (dT3 eta3 : ℚ) (p : Particle) :
    1 ≤ (rattlePos M pos vel accel mass deltaT eta).iters
    ∧ (rattlePos M pos vel accel mass deltaT eta).iters ≤ 10
    ∧ 1 ≤ (rattleVel vel2 accel2 normal mass2 deltaT2 eta2).iters
    ∧ (rattleVel vel2 accel2 normal mass2 deltaT2 eta2).iters ≤ 10
    ∧ (nveStepOnePart M sqrtQ limit limit_val zero_force dT3 eta3 p).vel
        = (rattlePos M p.pos p.vel (if zero_force then vzero else p.accel)
            p.mass dT3 eta3).halfVel
    ∧ (includeRattleForcePart M dT3 eta3 p).netForce
        = ⟨p.netForce.x - (rattlePos M p.pos p.vel p.accel p.mass dT3 eta3).lam
              * (M.derivative p.pos).x,
            p.netForce.y - (rattlePos M p.pos p.vel p.accel p.mass dT3 eta3).lam
              * (M.derivative p.pos).y,
            p.netForce.z - (rattlePos M p.pos p.vel p.accel p.mass dT3 eta3).lam
              * (M.derivative p.pos).z⟩ :=
  ⟨(rattlePos_spec M pos vel accel mass deltaT eta).2.2.2.1,
    (rattlePos_spec M pos vel accel mass deltaT eta).2.2.2.2,
    (rattleVel_iters_bounds vel2 accel2 normal mass2 deltaT2 eta2).1,
    (rattleVel_iters_bounds vel2 accel2 normal mass2 deltaT2 eta2).2,
    rfl, rfl⟩

/-- Scaling every component of `v` by the same factor (written exactly as
    the source's per-component `v/len*limit_val/deltaT`) preserves
    orthogonality to `n`. -/
theorem dot_scale_zero (n v : Vec3) (a b c : ℚ) (h : dot n v = 0) :
    dot n ⟨v.x / a * b / c, v.y / a * b / c, v.z / a * b / c⟩ = 0 := by
  simp only [dot] at h ⊢
  have hfac : n.x * (v.x / a * b / c) + n.y * (v.y / a * b / c) + n.z * (v.z / a * b / c)
      = (n.x * v.x + n.y * v.y + n.z * v.z) * (a⁻¹ * b * c⁻¹) := by ring
  rw [hfac, h, zero_mul]

/-- C3, counterexample.  On the plane z = 0 with eta = 1/100, a unit-mass
    particle starting at height eta with velocity eta away from the plane:
    the position-stage loop converges (the tolerance test passes on the
    first iteration), yet the position the method stores afterwards sits at
    height 1/50, violating |g(x)| ≤ eta — the residual test is evaluated at
    the pre-update iterate while the stored position is that iterate plus
    the vector residual. -/
theorem claim3_counterexample :
    (rattlePos planeManifold cex3Particle.pos cex3Particle.vel cex3Particle.accel
        cex3Particle.mass 1 (1 / 100)).converged = true
    ∧ planeManifold.implicit_function
        (nveStepOnePart planeManifold (fun q => q) false 1 false 1 (1 / 100) cex3Particle).pos
      = 1 / 50
    ∧ ¬ |planeManifold.implicit_function
          (nveStepOnePart planeManifold (fun q => q) false 1 false 1 (1 / 100)
            cex3Particle).pos|
        ≤ 1 / 100 := by
  have h1 : rattlePos planeManifold ⟨0, 0, 1 / 100⟩ ⟨0, 0, 1 / 100⟩ ⟨0, 0, 0⟩ 1 1 (1 / 100)
      = ⟨⟨0, 0, 1 / 100⟩, ⟨0, 0, 0⟩, 1 / 25, ⟨0, 0, 1 / 100⟩, ⟨0, 0, 1 / 100⟩,
          1 / 100, 1, true⟩ := by
    rw [rattlePos, show (10 : ℕ) = 8 + 2 from rfl, rattlePosGo]
    norm_num [rattlePosExit, rattlePosBody, maxNormLe, planeManifold, vadd, vsub, smul, dot]
  have hpos : (nveStepOnePart planeManifold (fun q => q) false 1 false 1 (1 / 100)
      cex3Particle).pos = ⟨0, 0, 1 / 50⟩ := by
    simp only [nveStepOnePart, show cex3Particle.pos = ⟨0, 0, 1 / 100⟩ from rfl,
      show cex3Particle.vel = ⟨0, 0, 1 / 100⟩ from rfl,
      show cex3Particle.accel = ⟨0, 0, 0⟩ from rfl,
      show cex3Particle.mass = 1 from rfl, Bool.false_eq_true, if_false, h1]
    norm_num [vadd]
  refine ⟨?_, ?_, ?_⟩
  · rw [show cex3Particle.pos = ⟨0, 0, 1 / 100⟩ from rfl,
      show cex3Particle.vel = ⟨0, 0, 1 / 100⟩ from rfl,
      show cex3Particle.accel = ⟨0, 0, 0⟩ from rfl,
      show cex3Particle.mass = 1 from rfl, h1]
  · rw [hpos]
    norm_num [planeManifold]
  · rw [hpos]
    norm_num [planeManifold, abs_of_pos]

/-- C3, amended.  When the position-stage loop exits because the tolerance
    test passed, the test guarantees `max(|residual|, |g|) ≤ eta` at the
    iterate the residuals were evaluated at, and the position the method
    stores is that iterate plus the vector residual — so the stored
    position itself satisfies |g| ≤ eta only up to the variation of g over
    the residual (the counterexample shows 2*eta is reachable).  The
    velocity produced by the velocity-stage loop, by contrast, has exactly
    zero component along the local gradient (with or without the movement
    limit), which is stronger than the claimed ≤ eta bound. -/
theorem claim3_amended_rattle_tolerance (M : Manifold) (pos vel accel : Vec3)
    (mass deltaT eta : ℚ) (sqrtQ : ℚ → ℚ) (limit : Bool) (limit_val : ℚ)
    (zero_force : Bool) (eta2 : ℚ) (q : Particle)
    (hm : q.mass ≠ 0) (hd : deltaT ≠ 0)
    (hn : dot (M.derivative q.pos) (M.derivative q.pos) ≠ 0) :
    ((rattlePos M pos vel accel mass deltaT eta).converged = true →
      normSq (rattlePos M pos vel accel mass deltaT eta).residual ≤ eta ^ 2
      ∧ (rattlePos M pos vel accel mass deltaT eta).resid ^ 2 ≤ eta ^ 2
      ∧ (rattlePos M pos vel accel mass deltaT eta).resid
          = M.implicit_function (rattlePos M pos vel accel mass deltaT eta).xHat)
    ∧ vadd pos (smul deltaT (rattlePos M pos vel accel mass deltaT eta).halfVel)
        = vadd (rattlePos M pos vel accel mass deltaT eta).xHat
            (rattlePos M pos vel accel mass deltaT eta).residual
    ∧ dot (M.derivative q.pos)
        ((nveStepTwoPart M sqrtQ limit limit_val zero_force deltaT eta2 q).vel) = 0 := by
  obtain ⟨hres, hstore, hconv, _, _⟩ := rattlePos_spec M pos vel accel mass deltaT eta
  refine ⟨?_, hstore, ?_⟩
  · intro hc
    have ht := hconv.mp hc
    rw [maxNormLe, Bool.and_eq_true, decide_eq_true_eq, decide_eq_true_eq] at ht
    exact ⟨ht.1, ht.2, hres⟩
  · simp only [nveStepTwoPart]
    set ac := if zero_force = true then vzero else smul (1 / q.mass) q.netForce with hac
    have hv : dot (M.derivative q.pos)
        (vadd q.vel (smul (1 / 2 * deltaT)
          (vsub ac (smul ((rattleVel q.vel ac (M.derivative q.pos) q.mass deltaT eta2).mu
            * (1 / q.mass)) (M.derivative q.pos))))) = 0 := by
      obtain ⟨hfin, horth, _, _⟩ :=
        rattleVel_spec q.vel ac (M.derivative q.pos) q.mass deltaT eta2 hm hd hn
      rw [show vadd q.vel (smul (1 / 2 * deltaT)
          (vsub ac (smul ((rattleVel q.vel ac (M.derivative q.pos) q.mass deltaT eta2).mu
            * (1 / q.mass)) (M.derivative q.pos))))
          = rattleVelFinal q.vel ac (M.derivative q.pos) q.mass deltaT eta2 from rfl, hfin]
      exact horth
    split
    · split
      · exact dot_scale_zero _ _ _ _ _ hv
      · exact hv
    · exact hv

/-- Witness for C3's amended theorem: the converging plane example for the
    position stage, and a rest particle on the plane for the velocity
    stage. -/
theorem claim3_witness :
    (((rattlePos planeManifold cex3Particle.pos cex3Particle.vel cex3Particle.accel
        cex3Particle.mass 1 (1 / 100)).converged = true →
      normSq (rattlePos planeManifold cex3Particle.pos cex3Particle.vel cex3Particle.accel
          cex3Particle.mass 1 (1 / 100)).residual ≤ (1 / 100) ^ 2
      ∧ (rattlePos planeManifold cex3Particle.pos cex3Particle.vel cex3Particle.accel
          cex3Particle.mass 1 (1 / 100)).resid ^ 2 ≤ (1 / 100) ^ 2
      ∧ (rattlePos planeManifold cex3Particle.pos cex3Particle.vel cex3Particle.accel
          cex3Particle.mass 1 (1 / 100)).resid
          = planeManifold.implicit_function
              (rattlePos planeManifold cex3Particle.pos cex3Particle.vel cex3Particle.accel
                cex3Particle.mass 1 (1 / 100)).xHat)
    ∧ vadd cex3Particle.pos
        (smul 1 (rattlePos planeManifold cex3Particle.pos cex3Particle.vel cex3Particle.accel
          cex3Particle.mass 1 (1 / 100)).halfVel)
        = vadd (rattlePos planeManifold cex3Particle.pos cex3Particle.vel cex3Particle.accel
              cex3Particle.mass 1 (1 / 100)).xHat
            (rattlePos planeManifold cex3Particle.pos cex3Particle.vel cex3Particle.accel
              cex3Particle.mass 1 (1 / 100)).residual
    ∧ dot (planeManifold.derivative restParticle.pos)
        ((nveStepTwoPart planeManifold (fun _ => 0) false 1 false 1 (1 / 100)
          restParticle).vel) = 0) :=
  claim3_amended_rattle_tolerance planeManifold cex3Particle.pos cex3Particle.vel
    cex3Particle.accel cex3Particle.mass 1 (1 / 100) (fun _ => 0) false 1 false (1 / 100)
    restParticle (by norm_num [restParticle]) (by norm_num)
    (by norm_num [planeManifold, restParticle, dot])

/-- C9.  With the movement limit set to `limit_val`, the limiting is
    applied to the displacement computed after the position-stage RATTLE
    solve (step one) and to the velocity after the velocity-stage solve
    (step two): the step-one displacement has squared norm at most
    `limit_val^2`, and the step-two final speed satisfies
    `|v|^2 * deltaT^2 ≤ limit_val^2`.  `dvec`/`vvec` name the unclamped
    displacement and velocity, and the square-root oracle is assumed
    correct and nonnegative at the two points where the source calls
    sqrt. -/
theorem claim9_nve_limit (M : Manifold) (sqrtQ : ℚ → ℚ) (limit_val : ℚ)
    (zero_force : Bool) (deltaT eta : ℚ) (p q : Particle) (dvec vvec : Vec3)
    (hdv : dvec = smul deltaT
        (rattlePos M p.pos p.vel (if zero_force then vzero else p.accel)
          p.mass deltaT eta).halfVel)
    (hs1 : sqrtQ (dvec.x * dvec.x + dvec.y * dvec.y + dvec.z * dvec.z) ^ 2
        = dvec.x * dvec.x + dvec.y * dvec.y + dvec.z * dvec.z)
    (hp1 : 0 ≤ sqrtQ (dvec.x * dvec.x + dvec.y * dvec.y + dvec.z * dvec.z))
    (hvv : vvec = vadd q.vel (smul (1 / 2 * deltaT)
        (vsub (if zero_force then vzero else smul (1 / q.mass) q.netForce)
          (smul ((rattleVel q.vel
              (if zero_force then vzero else smul (1 / q.mass) q.netForce)
              (M.derivative q.pos) q.mass deltaT eta).mu * (1 / q.mass))
            (M.derivative q.pos)))))
    (hs2 : sqrtQ (vvec.x * vvec.x + vvec.y * vvec.y + vvec.z * vvec.z) ^ 2
        = vvec.x * vvec.x + vvec.y * vvec.y + vvec.z * vvec.z)
    (hp2 : 0 ≤ sqrtQ (vvec.x * vvec.x + vvec.y * vvec.y + vvec.z * vvec.z))
    (hL : 0 ≤ limit_val) (hdt : 0 < deltaT) :
    normSq (vsub (nveStepOnePart M sqrtQ true limit_val zero_force deltaT eta p).pos p.pos)
        ≤ limit_val ^ 2
    ∧ normSq ((nveStepTwoPart M sqrtQ true limit_val zero_force deltaT eta q).vel)
        * deltaT ^ 2 ≤ limit_val ^ 2 := by
  constructor
  · simp only [nveStepOnePart]
    have hdx : deltaT * (rattlePos M p.pos p.vel
        (if zero_force = true then vzero else p.accel) p.mass deltaT eta).halfVel.x
        = dvec.x := by rw [hdv]; simp [smul]
    have hdy : deltaT * (rattlePos M p.pos p.vel
        (if zero_force = true then vzero else p.accel) p.mass deltaT eta).halfVel.y
        = dvec.y := by rw [hdv]; simp [smul]
    have hdz : deltaT * (rattlePos M p.pos p.vel
        (if zero_force = true then vzero else p.accel) p.mass deltaT eta).halfVel.z
        = dvec.z := by rw [hdv]; simp [smul]
    rw [hdx, hdy, hdz]
    rcases lt_or_le limit_val (sqrtQ (dvec.x * dvec.x + dvec.y * dvec.y + dvec.z * dvec.z))
      with h | h
    · rw [if_pos trivial, if_pos h]
      have hs0 : (0 : ℚ) < sqrtQ (dvec.x * dvec.x + dvec.y * dvec.y + dvec.z * dvec.z) :=
        lt_of_le_of_lt hL h
      have hinv : sqrtQ (dvec.x * dvec.x + dvec.y * dvec.y + dvec.z * dvec.z)
          * (sqrtQ (dvec.x * dvec.x + dvec.y * dvec.y + dvec.z * dvec.z))⁻¹ = 1 :=
        mul_inv_cancel₀ (ne_of_gt hs0)
      apply le_of_eq
      simp only [normSq, dot, vsub, vadd]
      have hexp : (p.pos.x + dvec.x / sqrtQ (dvec.x * dvec.x + dvec.y * dvec.y + dvec.z * dvec.z)
              * limit_val - p.pos.x)
            * (p.pos.x + dvec.x / sqrtQ (dvec.x * dvec.x + dvec.y * dvec.y + dvec.z * dvec.z)
              * limit_val - p.pos.x)
          + (p.pos.y + dvec.y / sqrtQ (dvec.x * dvec.x + dvec.y * dvec.y + dvec.z * dvec.z)
              * limit_val - p.pos.y)
            * (p.pos.y + dvec.y / sqrtQ (dvec.x * dvec.x + dvec.y * dvec.y + dvec.z * dvec.z)
              * limit_val - p.pos.y)
          + (p.pos.z + dvec.z / sqrtQ (dvec.x * dvec.x + dvec.y * dvec.y + dvec.z * dvec.z)
              * limit_val - p.pos.z)
            * (p.pos.z + dvec.z / sqrtQ (dvec.x * dvec.x + dvec.y * dvec.y + dvec.z * dvec.z)
              * limit_val - p.pos.z)
          = (dvec.x * dvec.x + dvec.y * dvec.y + dvec.z * dvec.z)
            * ((sqrtQ (dvec.x * dvec.x + dvec.y * dvec.y + dvec.z * dvec.z))⁻¹) ^ 2
            * limit_val ^ 2 := by ring
      rw [hexp]
      nth_rewrite 1 [← hs1]
      calc sqrtQ (dvec.x * dvec.x + dvec.y * dvec.y + dvec.z * dvec.z) ^ 2
            * ((sqrtQ (dvec.x * dvec.x + dvec.y * dvec.y + dvec.z * dvec.z))⁻¹) ^ 2
            * limit_val ^ 2
          = (sqrtQ (dvec.x * dvec.x + dvec.y * dvec.y + dvec.z * dvec.z)
              * (sqrtQ (dvec.x * dvec.x + dvec.y * dvec.y + dvec.z * dvec.z))⁻¹) ^ 2
            * limit_val ^ 2 := by ring
        _ = limit_val ^ 2 := by rw [hinv]; ring
    · rw [if_pos trivial, if_neg (not_lt.mpr h)]
      have hb : mul_self_le_mul_self hp1 h
          = mul_self_le_mul_self hp1 h := rfl
      simp only [normSq, dot, vsub, vadd]
      nlinarith [mul_self_le_mul_self hp1 h, hs1]
  · simp only [nveStepTwoPart]
    rw [← hvv]
    rcases lt_or_le limit_val
        (sqrtQ (vvec.x * vvec.x + vvec.y * vvec.y + vvec.z * vvec.z) * deltaT) with h | h
    · rw [if_pos trivial, if_pos h]
      have hs0 : (0 : ℚ) < sqrtQ (vvec.x * vvec.x + vvec.y * vvec.y + vvec.z * vvec.z) := by
        nlinarith [lt_of_le_of_lt hL h, hdt]
      have hinv : sqrtQ (vvec.x * vvec.x + vvec.y * vvec.y + vvec.z * vvec.z)
          * (sqrtQ (vvec.x * vvec.x + vvec.y * vvec.y + vvec.z * vvec.z))⁻¹ = 1 :=
        mul_inv_cancel₀ (ne_of_gt hs0)
      have hinvd : deltaT * deltaT⁻¹ = 1 := mul_inv_cancel₀ (ne_of_gt hdt)
      apply le_of_eq
      simp only [normSq, dot]
      have hexp : ((vvec.x / sqrtQ (vvec.x * vvec.x + vvec.y * vvec.y + vvec.z * vvec.z)
              * limit_val / deltaT)
            * (vvec.x / sqrtQ (vvec.x * vvec.x + vvec.y * vvec.y + vvec.z * vvec.z)
              * limit_val / deltaT)
          + (vvec.y / sqrtQ (vvec.x * vvec.x + vvec.y * vvec.y + vvec.z * vvec.z)
              * limit_val / deltaT)
            * (vvec.y / sqrtQ (vvec.x * vvec.x + vvec.y * vvec.y + vvec.z * vvec.z)
              * limit_val / deltaT)
          + (vvec.z / sqrtQ (vvec.x * vvec.x + vvec.y * vvec.y + vvec.z * vvec.z)
              * limit_val / deltaT)
            * (vvec.z / sqrtQ (vvec.x * vvec.x + vvec.y * vvec.y + vvec.z * vvec.z)
              * limit_val / deltaT)) * deltaT ^ 2
          = (vvec.x * vvec.x + vvec.y * vvec.y + vvec.z * vvec.z)
            * ((sqrtQ (vvec.x * vvec.x + vvec.y * vvec.y + vvec.z * vvec.z))⁻¹) ^ 2
            * limit_val ^ 2 * (deltaT⁻¹) ^ 2 * deltaT ^ 2 := by ring
      rw [hexp]
      nth_rewrite 1 [← hs2]
      calc sqrtQ (vvec.x * vvec.x + vvec.y * vvec.y + vvec.z * vvec.z) ^ 2
            * ((sqrtQ (vvec.x * vvec.x + vvec.y * vvec.y + vvec.z * vvec.z))⁻¹) ^ 2
            * limit_val ^ 2 * (deltaT⁻¹) ^ 2 * deltaT ^ 2
          = (sqrtQ (vvec.x * vvec.x + vvec.y * vvec.y + vvec.z * vvec.z)
              * (sqrtQ (vvec.x * vvec.x + vvec.y * vvec.y + vvec.z * vvec.z))⁻¹) ^ 2
            * (deltaT * deltaT⁻¹) ^ 2 * limit_val ^ 2 := by ring
        _ = limit_val ^ 2 := by rw [hinv, hinvd]; ring
    · rw [if_pos trivial, if_neg (not_lt.mpr h)]
      simp only [normSq, dot]
      nlinarith [mul_self_le_mul_self
        (mul_nonneg hp2 hdt.le) h, hs2]

/-- Witness for C9: a rest particle on the plane with limit 1; both
    displacement and speed stay within the limit. -/
theorem claim9_witness :
    normSq (vsub (nveStepOnePart planeManifold (fun _ => 0) true 1 false 1 (1 / 100)
        restParticle).pos restParticle.pos) ≤ 1 ^ 2
    ∧ normSq ((nveStepTwoPart planeManifold (fun _ => 0) true 1 false 1 (1 / 100)
        restParticle).vel) * 1 ^ 2 ≤ 1 ^ 2 := by
  have hrest : rattlePos planeManifold ⟨0, 0, 0⟩ ⟨0, 0, 0⟩ ⟨0, 0, 0⟩ 1 1 (1 / 100)
      = ⟨⟨0, 0, 0⟩, ⟨0, 0, 0⟩, 0, ⟨0, 0, 0⟩, ⟨0, 0, 0⟩, 0, 1, true⟩ := by
    rw [rattlePos, show (10 : ℕ) = 8 + 2 from rfl, rattlePosGo]
    norm_num [rattlePosExit, rattlePosBody, maxNormLe, planeManifold, vadd, vsub, smul, dot]
  have hrestv : rattleVel ⟨0, 0, 0⟩ ⟨0, 0, 0⟩ ⟨0, 0, 1⟩ 1 1 (1 / 100)
      = ⟨⟨0, 0, 0⟩, ⟨0, 0, 0⟩, 0, ⟨0, 0, 0⟩, 0, 1, true⟩ := by
    rw [rattleVel, show (10 : ℕ) = 8 + 2 from rfl, rattleVelGo]
    norm_num [rattleVelExit, rattleVelBody, rattleVelBetaStep, rattleVelBeta, maxNormMulLe,
      vadd, vsub, smul, dot]
  refine claim9_nve_limit planeManifold (fun _ => 0) 1 false 1 (1 / 100) restParticle
    restParticle ⟨0, 0, 0⟩ ⟨0, 0, 0⟩ ?_ (by norm_num) (by norm_num) ?_ (by norm_num)
    (by norm_num) (by norm_num) (by norm_num)
  · rw [show restParticle.pos = ⟨0, 0, 0⟩ from rfl, show restParticle.vel = ⟨0, 0, 0⟩ from rfl,
      show restParticle.accel = ⟨0, 0, 0⟩ from rfl, show restParticle.mass = 1 from rfl]
    norm_num [hrest, smul]
  · rw [show restParticle.pos = ⟨0, 0, 0⟩ from rfl, show restParticle.vel = ⟨0, 0, 0⟩ from rfl,
      show restParticle.netForce = ⟨0, 0, 0⟩ from rfl, show restParticle.mass = 1 from rfl]
    norm_num [planeManifold, hrestv, vadd, vsub, smul]

/-- The tangent-plane projection removes the entire component along the
    gradient, given a correct nonzero square root of `dot n n`. -/
theorem tangentProjectDir_orth (sqrtQ : ℚ → ℚ) (n r : Vec3)
    (hsq : sqrtQ (dot n n) ^ 2 = dot n n) (hs0 : sqrtQ (dot n n) ≠ 0) :
    dot n (tangentProjectDir sqrtQ n r) = 0 := by
  simp only [tangentProjectDir, dot] at *
  field_simp
  linear_combination (n.x * r.x + n.y * r.y + n.z * r.z) * hsq

/-- C6.  The stochastic force of the Langevin velocity step: the friction
    coefficient is `lambda*diameter` in single-scale-factor mode and the
    per-type gamma otherwise; for positive temperature the random direction
    is projected onto the manifold tangent plane (zero component along the
    unit gradient) and scaled by `sqrt(6*gamma*T/deltaT)` (zero when
    translational noise is suppressed), and the total stochastic force is
    `random_force - gamma*v`; for `T ≤ 0` the random force is zero and only
    the friction `-gamma*v` remains. -/
theorem claim6_langevin_bd_force (rs : RNGStream) (sqrtQ : ℚ → ℚ)
    (P : LangevinParams) (M : Manifold) (timestep : ℕ) (p : Particle)
    (hsq : sqrtQ (dot (M.derivative p.pos) (M.derivative p.pos)) ^ 2
        = dot (M.derivative p.pos) (M.derivative p.pos))
    (hs0 : sqrtQ (dot (M.derivative p.pos) (M.derivative p.pos)) ≠ 0) :
    langevinGamma P p = (if P.use_lambda then P.lam_coeff * p.diameter else P.gamma p.typ)
    ∧ (0 < P.T →
        dot (M.derivative p.pos)
          (tangentProjectDir sqrtQ (M.derivative p.pos)
            (langevinRandomDir rs P.seed p.tag timestep)) = 0
        ∧ langevinBDForce rs sqrtQ P M timestep p
          = vsub (smul (if P.noiseless_t then 0
                else sqrtQ (6 * langevinGamma P p * P.T / P.deltaT))
              (tangentProjectDir sqrtQ (M.derivative p.pos)
                (langevinRandomDir rs P.seed p.tag timestep)))
            (smul (langevinGamma P p) p.vel))
    ∧ (P.T ≤ 0 →
        langevinBDForce rs sqrtQ P M timestep p
          = vsub vzero (smul (langevinGamma P p) p.vel)) := by
  refine ⟨rfl, ?_, ?_⟩
  · intro hT
    refine ⟨tangentProjectDir_orth sqrtQ (M.derivative p.pos)
      (langevinRandomDir rs P.seed p.tag timestep) hsq hs0, ?_⟩
    rw [langevinBDForce, if_pos hT]
    simp only [vsub, smul]
    rw [Vec3.mk.injEq]
    refine ⟨by ring, by ring, by ring⟩
  · intro hT
    rw [langevinBDForce, if_neg (not_lt.mpr hT)]
    simp only [vsub, smul, vzero]

/-- Witness for C6: the plane manifold at the rest particle, unit draws,
    per-type gamma mode, T = 1. -/
theorem claim6_witness :
    langevinGamma witnessLangevinParams restParticle
      = (if witnessLangevinParams.use_lambda
          then witnessLangevinParams.lam_coeff * restParticle.diameter
          else witnessLangevinParams.gamma restParticle.typ)
    ∧ (0 < witnessLangevinParams.T →
        dot (planeManifold.derivative restParticle.pos)
          (tangentProjectDir oneSqrt (planeManifold.derivative restParticle.pos)
            (langevinRandomDir witnessStream witnessLangevinParams.seed restParticle.tag 0))
          = 0
        ∧ langevinBDForce witnessStream oneSqrt witnessLangevinParams planeManifold 0
            restParticle
          = vsub (smul (if witnessLangevinParams.noiseless_t then 0
                else oneSqrt (6 * langevinGamma witnessLangevinParams restParticle
                  * witnessLangevinParams.T / witnessLangevinParams.deltaT))
              (tangentProjectDir oneSqrt (planeManifold.derivative restParticle.pos)
                (langevinRandomDir witnessStream witnessLangevinParams.seed restParticle.tag 0)))
            (smul (langevinGamma witnessLangevinParams restParticle) restParticle.vel))
    ∧ (witnessLangevinParams.T ≤ 0 →
        langevinBDForce witnessStream oneSqrt witnessLangevinParams planeManifold 0
            restParticle
          = vsub vzero (smul (langevinGamma witnessLangevinParams restParticle)
              restParticle.vel)) :=
  claim6_langevin_bd_force witnessStream oneSqrt witnessLangevinParams planeManifold 0
    restParticle (by norm_num [planeManifold, restParticle, oneSqrt, dot])
    (by norm_num [planeManifold, restParticle, oneSqrt, dot])

/-- C8.  Every stochastic draw is taken from a generator seeded by (method
    identifier, user seed, persistent tag, timestep).  Consequently the
    CPU Langevin velocity step is invariant under reordering of the group's
    member list (the per-particle update reads only that particle's
    record), and a GPU Brownian kernel thread produces the same particle
    update in two runs whose (groupTags, rtag) assignments place the same
    tag at different thread slots and array indices, as long as the
    per-tag particle data agree. -/
theorem claim8_rng_seeding (rs : RNGStream) (sqrtQ : ℚ → ℚ) (P : LangevinParams)
    (M : Manifold) (timestep : ℕ) (g1 g2 : List ℕ) (ps : ℕ → Particle) (j : ℕ)
    (h1 : g1.Nodup) (h2 : g2.Nodup) (hmem : ∀ i, i ∈ g1 ↔ i ∈ g2)
    (normalTransform : ℚ → ℚ → ℚ) (use_lambda : Bool) (lam_coeff : ℚ) (gamma : ℕ → ℚ)
    (seed timestep2 : ℕ) (T deltaT : ℚ) (f_brownian : ℕ → Vec3)
    (groupTags1 groupTags2 rtag1 rtag2 : ℕ → ℕ)
    (ps1 ps2 : ℕ → Particle) (gidx1 gidx2 : ℕ)
    (htag : groupTags1 gidx1 = groupTags2 gidx2)
    (hdata : ps1 (rtag1 (groupTags1 gidx1)) = ps2 (rtag2 (groupTags2 gidx2))) :
    langevinStepTwo rs sqrtQ P M timestep g1 ps j
      = langevinStepTwo rs sqrtQ P M timestep g2 ps j
    ∧ gpuRattleBrownianStepOneThread rs normalTransform sqrtQ use_lambda lam_coeff gamma
        seed timestep2 T deltaT f_brownian groupTags1 rtag1 ps1 gidx1
      = gpuRattleBrownianStepOneThread rs normalTransform sqrtQ use_lambda lam_coeff gamma
        seed timestep2 T deltaT f_brownian groupTags2 rtag2 ps2 gidx2 := by
  constructor
  · rw [langevinStepTwo, langevinStepTwo,
      updateSystem_apply (langevinStepTwoPart rs sqrtQ P M timestep) g1 ps j h1,
      updateSystem_apply (langevinStepTwoPart rs sqrtQ P M timestep) g2 ps j h2]
    by_cases hj : j ∈ g1
    · rw [if_pos hj, if_pos ((hmem j).mp hj)]
    · rw [if_neg hj, if_neg (fun hc => hj ((hmem j).mpr hc))]
  · rw [htag] at hdata
    simp only [gpuRattleBrownianStepOneThread, htag, hdata]

/-- Witness for C8: two orderings of a two-member group, and two thread
    assignments placing tag 7 at different indices. -/
theorem claim8_witness :
    langevinStepTwo witnessStream oneSqrt witnessLangevinParams planeManifold 0 [0, 1]
        (fun _ => restParticle) 0
      = langevinStepTwo witnessStream oneSqrt witnessLangevinParams planeManifold 0 [1, 0]
        (fun _ => restParticle) 0
    ∧ gpuRattleBrownianStepOneThread witnessStream (fun s u => s * u) oneSqrt false 1
        (fun _ => 2) 42 0 1 1 (fun _ => vzero) (fun _ => 7) (fun _ => 0)
        (fun _ => restParticle) 0
      = gpuRattleBrownianStepOneThread witnessStream (fun s u => s * u) oneSqrt false 1
        (fun _ => 2) 42 0 1 1 (fun _ => vzero) (fun _ => 7) (fun _ => 3)
        (fun _ => restParticle) 5 :=
  claim8_rng_seeding witnessStream oneSqrt witnessLangevinParams planeManifold 0 [0, 1]
    [1, 0] (fun _ => restParticle) 0 (by decide) (by decide)
    (fun i => by simp [List.mem_cons, or_comm]) (fun s u => s * u) false 1 (fun _ => 2)
    42 0 1 1 (fun _ => vzero) (fun _ => 7) (fun _ => 7) (fun _ => 0) (fun _ => 3)
    (fun _ => restParticle) (fun _ => restParticle) 0 5 rfl rfl

/-- C10.  IncludeRATTLEForce modifies, for group members only, exactly the
    net force (`- lambda*n`), the six virial components (the symmetrised
    `- lambda*n_i*x_j` terms) and the acceleration (`- lambda*n/m`); the
    position, velocity, orientation, angular momentum, image counter, mass,
    diameter, type, tag and net torque of group members are untouched, and
    particles outside the group are untouched entirely. -/
theorem claim10_include_rattle_force_frame (M : Manifold) (deltaT eta : ℚ)
    (group : List ℕ) (ps : ℕ → Particle) (j : ℕ) (hnd : group.Nodup) :
    (j ∉ group → IncludeRATTLEForce M deltaT eta group ps j = ps j)
    ∧ (j ∈ group →
        (IncludeRATTLEForce M deltaT eta group ps j).pos = (ps j).pos
        ∧ (IncludeRATTLEForce M deltaT eta group ps j).vel = (ps j).vel
        ∧ (IncludeRATTLEForce M deltaT eta group ps j).orientation = (ps j).orientation
        ∧ (IncludeRATTLEForce M deltaT eta group ps j).angmom = (ps j).angmom
        ∧ (IncludeRATTLEForce M deltaT eta group ps j).image = (ps j).image
        ∧ (IncludeRATTLEForce M deltaT eta group ps j).mass = (ps j).mass
        ∧ (IncludeRATTLEForce M deltaT eta group ps j).diameter = (ps j).diameter
        ∧ (IncludeRATTLEForce M deltaT eta group ps j).typ = (ps j).typ
        ∧ (IncludeRATTLEForce M deltaT eta group ps j).tag = (ps j).tag
        ∧ (IncludeRATTLEForce M deltaT eta group ps j).netTorque = (ps j).netTorque
        ∧ (IncludeRATTLEForce M deltaT eta group ps j).netForce
            = ⟨(ps j).netForce.x
                - (rattlePos M (ps j).pos (ps j).vel (ps j).accel (ps j).mass deltaT eta).lam
                  * (M.derivative (ps j).pos).x,
              (ps j).netForce.y
                - (rattlePos M (ps j).pos (ps j).vel (ps j).accel (ps j).mass deltaT eta).lam
                  * (M.derivative (ps j).pos).y,
              (ps j).netForce.z
                - (rattlePos M (ps j).pos (ps j).vel (ps j).accel (ps j).mass deltaT eta).lam
                  * (M.derivative (ps j).pos).z⟩
        ∧ (IncludeRATTLEForce M deltaT eta group ps j).accel
            = ⟨(ps j).accel.x
                - 1 / (ps j).mass
                  * (rattlePos M (ps j).pos (ps j).vel (ps j).accel (ps j).mass deltaT eta).lam
                  * (M.derivative (ps j).pos).x,
              (ps j).accel.y
                - 1 / (ps j).mass
                  * (rattlePos M (ps j).pos (ps j).vel (ps j).accel (ps j).mass deltaT eta).lam
                  * (M.derivative (ps j).pos).y,
              (ps j).accel.z
                - 1 / (ps j).mass
                  * (rattlePos M (ps j).pos (ps j).vel (ps j).accel (ps j).mass deltaT eta).lam
                  * (M.derivative (ps j).pos).z⟩
        ∧ (IncludeRATTLEForce M deltaT eta group ps j).netVirial
            = ⟨(ps j).netVirial.v0
                - (rattlePos M (ps j).pos (ps j).vel (ps j).accel (ps j).mass deltaT eta).lam
                  * (M.derivative (ps j).pos).x * (ps j).pos.x,
              (ps j).netVirial.v1
                - 1 / 2
                  * (rattlePos M (ps j).pos (ps j).vel (ps j).accel (ps j).mass deltaT eta).lam
                  * ((M.derivative (ps j).pos).y * (ps j).pos.x
                    + (M.derivative (ps j).pos).x * (ps j).pos.y),
              (ps j).netVirial.v2
                - 1 / 2
                  * (rattlePos M (ps j).pos (ps j).vel (ps j).accel (ps j).mass deltaT eta).lam
                  * ((M.derivative (ps j).pos).z * (ps j).pos.x
                    + (M.derivative (ps j).pos).x * (ps j).pos.z),
              (ps j).netVirial.v3
                - (rattlePos M (ps j).pos (ps j).vel (ps j).accel (ps j).mass deltaT eta).lam
                  * (M.derivative (ps j).pos).y * (ps j).pos.y,
              (ps j).netVirial.v4
                - 1 / 2
                  * (rattlePos M (ps j).pos (ps j).vel (ps j).accel (ps j).mass deltaT eta).lam
                  * ((M.derivative (ps j).pos).y * (ps j).pos.z
                    + (M.derivative (ps j).pos).z * (ps j).pos.y),
              (ps j).netVirial.v5
                - (rattlePos M (ps j).pos (ps j).vel (ps j).accel (ps j).mass deltaT eta).lam
                  * (M.derivative (ps j).pos).z * (ps j).pos.z⟩) := by
  have happ := updateSystem_apply (includeRattleForcePart M deltaT eta) group ps j hnd
  constructor
  · intro hj
    rw [IncludeRATTLEForce, happ, if_neg hj]
  · intro hj
    rw [IncludeRATTLEForce, happ, if_pos hj]
    exact ⟨rfl, rfl, rfl, rfl, rfl, rfl, rfl, rfl, rfl, rfl, rfl, rfl, rfl⟩

/-- Witness for C10: a one-member group; a particle outside it is fully
    untouched and the member keeps its position. -/
theorem claim10_witness :
    ((1 : ℕ) ∉ [0]
      ∧ IncludeRATTLEForce planeManifold 1 (1 / 100) [0] (fun _ => restParticle) 1
          = restParticle)
    ∧ ((0 : ℕ) ∈ [0]
      ∧ (IncludeRATTLEForce planeManifold 1 (1 / 100) [0] (fun _ => restParticle) 0).pos
          = restParticle.pos) := by
  have hnd : ([0] : List ℕ).Nodup := by decide
  have hout : (1 : ℕ) ∉ [0] := by decide
  have hin : (0 : ℕ) ∈ [0] := by decide
  refine ⟨⟨hout, ?_⟩, ⟨hin, ?_⟩⟩
  · exact (claim10_include_rattle_force_frame planeManifold 1 (1 / 100) [0]
      (fun _ => restParticle) 1 hnd).1 hout
  · exact ((claim10_include_rattle_force_frame planeManifold 1 (1 / 100) [0]
      (fun _ => restParticle) 0 hnd).2 hin).1
